import Mathlib

/-!
Verification of the Future/Promise primitive and its combinators described by
the repository specification, against the tutorial sources.

The tutorial scripts under src/ exercise the primitive (creating futures,
setting results or exceptions, registering callbacks, cancelling, gathering,
timing out, and bridging synchronous work through an executor); the primitive
itself — the single-assignment result cell, its state machine and the
combinators — is not part of src/, so those parts are modelled from the
specification's words and marked as such.  The dispatch logic of
`async_operation`, `sync_task` and `cpu_intensive_task` is embedded directly
from the sources.
-/

namespace AsyncTut

/-- Modelled from the spec: the error taxonomy of §7 together with the concrete
exception classes the tutorial sources raise (`RuntimeError` in
`async_operation`, `ValueError` in `manual_future_control`). -/
inductive ErrorKind where
  | RuntimeError (msg : String)
  | ValueError (msg : String)
  | TimeoutError
  | CancelledError
  | InvalidStateError
deriving DecidableEq, Repr

instance [DecidableEq e] [DecidableEq a] : DecidableEq (Except e a) := fun x y => by
  cases x with
  | ok v => cases y with
    | ok w => exact decidable_of_iff (v = w) (by simp)
    | error f => exact isFalse (by simp)
  | error u => cases y with
    | ok w => exact isFalse (by simp)
    | error f => exact decidable_of_iff (u = f) (by simp)

/-- Modelled from the spec: the state of a ResultCell (§3): one of `Pending`,
`Resolved(value)`, `Failed(error)`, `Cancelled`. -/
inductive FState (T : Type) where
  | Pending
  | Resolved (value : T)
  | Failed (error : ErrorKind)
  | Cancelled
deriving DecidableEq, Repr

/-- Whether a state is terminal (anything but `Pending`). -/
def FState.isTerminal : FState T → Bool
  | .Pending => false
  | _ => true

/-- Whether a state is still `Pending`. -/
def FState.isPending : FState T → Bool
  | .Pending => true
  | _ => false

/-- Modelled from the spec: the ResultCell backing a Future (§3): the state,
the ordered sequence of registered-but-not-yet-invoked callbacks, and — so
that the exactly-once invocation contract can be stated — the ordered record
of callbacks already invoked.  Callbacks are identified abstractly by a type
`C`. -/
structure ResultCell (T : Type) (C : Type) where
  state : FState T
  callbacks : List C
  fired : List C
deriving DecidableEq, Repr

/-- Modelled from the spec: `create_future()` (§6) — a fresh pending cell with
no callbacks registered and none invoked. -/
def newCell : ResultCell T C :=
  { state := .Pending, callbacks := [], fired := [] }

/-- Modelled from the spec: `resolve(value)` (§4.1, asyncio `set_result`):
transitions `Pending → Resolved`, triggering all registered callbacks in
registration order; a programming fault (`InvalidStateError`) if the cell is
already terminal. -/
def resolve (c : ResultCell T C) (v : T) : Except ErrorKind (ResultCell T C) :=
  match c.state with
  | .Pending =>
      .ok { state := .Resolved v, callbacks := [], fired := c.fired ++ c.callbacks }
  | _ => .error .InvalidStateError

/-- Modelled from the spec: `fail(error)` (§4.1, asyncio `set_exception`):
transitions `Pending → Failed(error)` with the same callback semantics as
`resolve`; a fault if already terminal. -/
def fail (c : ResultCell T C) (e : ErrorKind) : Except ErrorKind (ResultCell T C) :=
  match c.state with
  | .Pending =>
      .ok { state := .Failed e, callbacks := [], fired := c.fired ++ c.callbacks }
  | _ => .error .InvalidStateError

/-- What `cancel()` reports: either the cell was cancelled, or it had already
completed and the call was a no-op. -/
inductive CancelOutcome where
  | wasCancelled
  | alreadyCompleted
deriving DecidableEq, Repr

/-- Modelled from the spec: `cancel()` (§4.1): transitions `Pending →
Cancelled` only if still pending (notifying callbacks the same way);
cancelling an already-resolved/failed cell is a no-op returning "already
completed" rather than an error. -/
def cancel (c : ResultCell T C) : CancelOutcome × ResultCell T C :=
  match c.state with
  | .Pending =>
      (.wasCancelled,
        { state := .Cancelled, callbacks := [], fired := c.fired ++ c.callbacks })
  | _ => (.alreadyCompleted, c)

/-- Modelled from the spec: `add_callback(fn)` (§4.1, asyncio
`add_done_callback`): appends to the callback sequence if pending; if already
terminal, the callback is invoked immediately (never dropped, never invoked
twice). -/
def add_callback (c : ResultCell T C) (f : C) : ResultCell T C :=
  match c.state with
  | .Pending => { c with callbacks := c.callbacks ++ [f] }
  | _ => { c with fired := c.fired ++ [f] }

/-- Modelled from the spec: `peek_state()` (§4.1) — non-consuming state
query. -/
def peek_state (c : ResultCell T C) : FState T :=
  c.state

/-- Modelled from the spec: `done()` — true iff the cell is in a terminal
state (asyncio `Future.done`). -/
def done (c : ResultCell T C) : Bool :=
  c.state.isTerminal

/-- Modelled from the spec: `cancelled()` — true iff the cell is in the
`Cancelled` state (asyncio `Future.cancelled`). -/
def cancelled (c : ResultCell T C) : Bool :=
  match c.state with
  | .Cancelled => true
  | _ => false

/-- Modelled from the spec: the outcome of `await_result()` (§4.1) on a cell:
`none` means the caller suspends (cell still pending); otherwise the value if
`Resolved`, the stored error if `Failed`, and the distinguished cancellation
signal if `Cancelled` — an error is returned to the awaiting computation, not
a crash of the scheduler. -/
def await_result (c : ResultCell T C) : Option (Except ErrorKind T) :=
  match c.state with
  | .Pending => none
  | .Resolved v => some (.ok v)
  | .Failed e => some (.error e)
  | .Cancelled => some (.error .CancelledError)

/-! ### Operation traces on a single cell

To state lifecycle properties ("exactly one completion ever succeeds",
"callbacks fire exactly once, in registration order") we run an arbitrary
sequence of API calls against a cell. -/

/-- One API call against a ResultCell: register a callback, set a result, set
an exception, or request cancellation. -/
inductive Op (T C : Type) where
  | addCb (f : C)
  | setRes (v : T)
  | setExc (e : ErrorKind)
  | doCancel
deriving DecidableEq, Repr

/-- Apply one call to the cell.  A `resolve`/`fail` on an already-terminal
cell faults with `InvalidStateError` and leaves the cell untouched (the fault
is surfaced to the producer, not applied to the cell); `cancel` on a terminal
cell is a no-op. -/
def stepOp (c : ResultCell T C) : Op T C → ResultCell T C
  | .addCb f => add_callback c f
  | .setRes v =>
      match resolve c v with
      | .ok c2 => c2
      | .error _ => c
  | .setExc e =>
      match fail c e with
      | .ok c2 => c2
      | .error _ => c
  | .doCancel => (Prod.snd (cancel c))

/-- Whether this call, applied to this cell, succeeds in transitioning the
cell out of `Pending`. -/
def opCompletes (c : ResultCell T C) : Op T C → Bool
  | .addCb _ => false
  | _ => !c.state.isTerminal

/-- Run a whole call sequence against a cell. -/
def runOps (c : ResultCell T C) (ops : List (Op T C)) : ResultCell T C :=
  ops.foldl stepOp c

/-- How many calls of the sequence succeed in transitioning the cell out of
`Pending`. -/
def successCount (c : ResultCell T C) : List (Op T C) → Nat
  | [] => 0
  | op :: rest =>
      (if opCompletes c op then 1 else 0) + successCount (stepOp c op) rest

/-- The callbacks a call sequence registers, in registration order. -/
def registrations : List (Op T C) → List C
  | [] => []
  | .addCb f :: rest => f :: registrations rest
  | _ :: rest => registrations rest

/-! ### Embedded source operations and modelled combinators -/

/-- What a producer coroutine calls on its Future when its work finishes:
either set_result with a value or set_exception with an error. -/
inductive CompletionCall (T : Type) where
  | set_result (v : T)
  | set_exception (e : ErrorKind)
deriving DecidableEq, Repr

/-- Apply a producer's completion call to the backing cell. -/
def applyCompletion (c : ResultCell T C) :
    CompletionCall T → Except ErrorKind (ResultCell T C)
  | .set_result v => resolve c v
  | .set_exception e => fail c e

/-- Embedded from src/09_future_object.py, `async_operation`: after awaiting
`asyncio.sleep(delay)` the coroutine dispatches on `data` — `set_result` of
"Operation succeeded" when data == "success", `set_exception` of
RuntimeError("Operation failed") when data == "error", otherwise `set_result`
of the interpolated string "Operation completed with data: " followed by the
data. -/
def async_operation (data : String) : CompletionCall String :=
  if data = "success" then .set_result "Operation succeeded"
  else if data = "error" then
    .set_exception (ErrorKind.RuntimeError "Operation failed")
  else .set_result ("Operation completed with data: " ++ data)

/-- Embedded from src/08_async_sync_hybrid.py, `sync_task`: sleeps for the
given duration, then returns the string "Result from " followed by the task
name. -/
def sync_task (name : String) : String :=
  "Result from " ++ name

/-- Embedded from src/08_async_sync_hybrid.py, `cpu_intensive_task`: returns
sum(i * i for i in range(n)). -/
def cpu_intensive_task (n : Nat) : Nat :=
  (List.range n).foldl (fun acc i => acc + i * i) 0

/-- Modelled from the spec: the ExecutorBridge completion handoff (§4.3, the
`loop.run_in_executor` pattern of `async_wrapper`/`cpu_wrapper` in
src/08_async_sync_hybrid.py): when the offloaded synchronous operation
finishes, the bridge marshals its outcome back and calls `resolve` with the
returned value, or `fail` with the captured thrown error — the error lands in
the Future instead of crashing the worker pool. -/
def executorComplete (c : ResultCell T C) (outcome : Except ErrorKind T) :
    Except ErrorKind (ResultCell T C) :=
  match outcome with
  | .ok v => resolve c v
  | .error e => fail c e

/-- The terminal state an outcome produces on the cell of the operation that
produced it. -/
def stateOfOutcome : Except ErrorKind T → FState T
  | .ok v => .Resolved v
  | .error e => .Failed e

/-! ### Discrete-event model for the combinators

An input to `gather` is a pair (delay, outcome): the input future completes
`delay` time units after the combinator is entered, with the given outcome.
A run of the combinator processes one completion event per input; the order
of the event list is the completion order, which a permutation hypothesis
lets range over every interleaving. -/

/-- A completion event: the time an input future finishes, the input's
position in the gather argument list, and its outcome. -/
structure Ev (T : Type) where
  time : Nat
  idx : Nat
  out : Except ErrorKind T
deriving DecidableEq, Repr

/-- The completion events of the timed inputs, one per input, `idx` numbered
from `k`. -/
def eventsFrom (k : Nat) : List (Nat × Except ErrorKind T) → List (Ev T)
  | [] => []
  | (d, o) :: rest => { time := d, idx := k, out := o } :: eventsFrom (k + 1) rest

/-- The completion events of the timed inputs, `idx` = position in the input
list. -/
def eventsOf (inputs : List (Nat × Except ErrorKind T)) : List (Ev T) :=
  eventsFrom 0 inputs

/-- Write a value at a position of a list; an out-of-range write is
dropped. -/
def setSlot : List α → Nat → α → List α
  | [], _, _ => []
  | _ :: rest, 0, a => a :: rest
  | o :: rest, n + 1, a => o :: setSlot rest n a

/-- Process events in order, each writing `f event` into its input's slot. -/
def writeSlots (f : Ev T → α) (init : List α) (evs : List (Ev T)) : List α :=
  evs.foldl (fun s ev => setSlot s ev.idx (f ev)) init

/-- The last event of the list aimed at slot `j`, if any (in a left fold a
later event overwrites an earlier one aimed at the same slot). -/
def lastWrite : List (Ev T) → Nat → Option (Ev T)
  | [], _ => none
  | ev :: rest, j =>
      match lastWrite rest j with
      | some e2 => some e2
      | none => if ev.idx = j then some ev else none

/-- Result of a CollectErrors gather run: the per-input Result slots and the
time the last input finished. -/
structure GatherRun (T : Type) where
  slots : List (Option (Except ErrorKind T))
  finishTime : Nat

/-- Modelled from the spec: `gather` in CollectErrors mode
(`asyncio.gather(..., return_exceptions=True)` in src/08_async_sync_hybrid.py):
every input is waited for; each completion event stores that input's Result —
its value or its captured error — in the slot of the input's position, and
the derived Future completes only when the last input has finished. -/
def gatherCollect (n : Nat) (evs : List (Ev T)) : GatherRun T :=
  { slots := writeSlots (fun ev => some ev.out) (List.replicate n none) evs
    finishTime := evs.foldl (fun t ev => max t ev.time) 0 }

/-- Modelled from the spec: when the last input of a CollectErrors gather
finishes, the derived Future is resolved — never failed — with the collected
Results. -/
def gatherCollectFinish (g : GatherRun T)
    (c : ResultCell (List (Except ErrorKind T)) C) :
    Except ErrorKind (ResultCell (List (Except ErrorKind T)) C) :=
  resolve c g.slots.reduceOption

/-- State of a FailFast gather run: each input's own cell state, the
per-input value slots collected so far, the derived Future's state, and the
time of the failure that settled the derived Future, if any. -/
structure FailFastRun (T : Type) where
  inputStates : List (FState T)
  results : List (Option T)
  derived : FState (List T)
  failTime : Option Nat
deriving DecidableEq, Repr

/-- Modelled from the spec: one completion event of a FailFast gather
(default `asyncio.gather` in src/03_hello_async_concurrent.py and
src/05_web_fetching_async.py): the input's own cell always reaches the
terminal state of its own outcome — gather never cancels an input.  If the
derived Future is still pending, a failing input fails it with that error at
that instant; a succeeding input's value is recorded.  If the derived Future
has already failed, the late outcome is discarded: nothing further is awaited
or recorded. -/
def failFastStep (st : FailFastRun T) (ev : Ev T) : FailFastRun T :=
  let st1 := { st with
    inputStates := setSlot st.inputStates ev.idx (stateOfOutcome ev.out) }
  match st.derived, ev.out with
  | .Pending, .error e =>
      { st1 with derived := .Failed e, failTime := some ev.time }
  | .Pending, .ok v =>
      { st1 with results := setSlot st1.results ev.idx (some v) }
  | _, _ => st1

/-- Run a FailFast gather over `n` inputs against a completion-event
sequence. -/
def failFastRun (n : Nat) (evs : List (Ev T)) : FailFastRun T :=
  evs.foldl failFastStep
    { inputStates := List.replicate n FState.Pending
      results := List.replicate n none
      derived := .Pending
      failTime := none }

/-- Modelled from the spec: once every input has completed, a FailFast gather
that saw no failure resolves the derived Future with the values in input
order; if some input failed, the derived Future already holds that first
error. -/
def failFastFinish (r : FailFastRun T) : FState (List T) :=
  match r.derived with
  | .Pending => .Resolved r.results.reduceOption
  | d => d

/-- The first failure among the completion events, in completion order, with
its time. -/
def firstFailure : List (Ev T) → Option (Nat × ErrorKind)
  | [] => none
  | ev :: rest =>
      match ev.out with
      | .error e => some (ev.time, e)
      | .ok _ => firstFailure rest

/-! ### Discrete-event model of the timeout combinator -/

/-- State of a `timeout(future, duration)` race (§4.4): the raced future's
cell, the deadline timer's cell, the derived Future the combinator returns,
and the time at which the derived Future settled. -/
structure TimeoutRun (T : Type) where
  fCell : FState T
  timer : FState Unit
  derived : FState T
  settleTime : Nat
deriving DecidableEq, Repr

/-- An event of the race: the raced future completes with its outcome, or
the deadline timer goes off. -/
inductive TimeoutEv (T : Type) where
  | fCompletes (out : Except ErrorKind T)
  | timerGoesOff
deriving DecidableEq, Repr

/-- Modelled from the spec: one scheduling step of the `timeout` race (§4.4,
`asyncio.wait_for` in src/09_future_object.py).  If the raced future
completes first, its outcome settles the derived Future and the pending timer
is cancelled.  If the deadline goes off first, the timer fires, the derived
Future fails with TimeoutError and the still-pending raced future is
cancelled.  A completion aimed at an already-cancelled cell is a no-op, and a
cancelled timer never fires. -/
def timeoutStep (t : Nat) (st : TimeoutRun T) : TimeoutEv T → TimeoutRun T
  | .fCompletes out =>
      if st.fCell.isPending then
        let st1 := { st with fCell := stateOfOutcome out }
        if st.derived.isPending then
          { st1 with
              derived := stateOfOutcome out, timer := .Cancelled,
              settleTime := t }
        else st1
      else st
  | .timerGoesOff =>
      if st.timer.isPending then
        let st1 := { st with timer := .Resolved () }
        if st.derived.isPending then
          { st1 with
              derived := .Failed .TimeoutError,
              fCell := if st.fCell.isPending then .Cancelled else st.fCell,
              settleTime := t }
        else st1
      else st

/-- Modelled from the spec: `timeout(future, duration)` processes the two
race events in time order; on a tie the raced future's completion is
processed first (§4.4: the original future's outcome takes precedence). -/
def timeoutRun (tf : Nat) (out : Except ErrorKind T) (d : Nat) : TimeoutRun T :=
  let init : TimeoutRun T :=
    { fCell := .Pending, timer := .Pending, derived := .Pending
      settleTime := 0 }
  if tf ≤ d then
    timeoutStep d (timeoutStep tf init (.fCompletes out)) .timerGoesOff
  else
    timeoutStep tf (timeoutStep d init .timerGoesOff) (.fCompletes out)

/-- The completion time of the slowest input: when a gather that waits for
all inputs finishes. -/
def maxDelay (inputs : List (Nat × Except ErrorKind T)) : Nat :=
  inputs.foldl (fun t p => max t p.1) 0

/-- The value of a successful outcome, if any. -/
def okValue : Except ErrorKind T → Option T
  | .ok v => some v
  | .error _ => none

/-- Example gather inputs with delays [3, 1, 2], as in the spec's testable
property for CollectErrors mode. -/
def gInputs : List (Nat × Except ErrorKind String) :=
  [(3, .ok "r1"), (1, .ok "r2"), (2, .ok "r3")]

/-- The completion events of `gInputs` in completion-time order — not input
order. -/
def gEvs : List (Ev String) :=
  [{ time := 1, idx := 1, out := .ok "r2" },
   { time := 2, idx := 2, out := .ok "r3" },
   { time := 3, idx := 0, out := .ok "r1" }]

/-- Example FailFast gather inputs: the second input fails first (delay 1),
the other two succeed later. -/
def ffInputs : List (Nat × Except ErrorKind String) :=
  [(2, .ok "a"), (1, .error (ErrorKind.RuntimeError "x")), (3, .ok "b")]

/-- The completion events of `ffInputs` in completion-time order: the failure
arrives first. -/
def ffEvs : List (Ev String) :=
  [{ time := 1, idx := 1, out := .error (ErrorKind.RuntimeError "x") },
   { time := 2, idx := 0, out := .ok "a" },
   { time := 3, idx := 2, out := .ok "b" }]

/-- Example cell: a Future already resolved with "r". -/
def resolvedCellR : ResultCell String Nat :=
  { state := .Resolved "r", callbacks := [], fired := [] }

/-- Example cell: a Future already failed the way `manual_future_control` in
src/09_future_object.py fails one. -/
def failedCellManual : ResultCell String Nat :=
  { state := .Failed (ErrorKind.ValueError "Manually set error!")
    callbacks := [], fired := [] }


lemma stepOp_addCb_terminal (c : ResultCell T C) (f : C)
    (h : c.state.isTerminal = true) :
    stepOp c (.addCb f) = { c with fired := c.fired ++ [f] } := by
  cases hs : c.state <;>
    simp_all [stepOp, add_callback, FState.isTerminal]

lemma stepOp_setRes_terminal (c : ResultCell T C) (v : T)
    (h : c.state.isTerminal = true) : stepOp c (.setRes v) = c := by
  cases hs : c.state <;> simp_all [stepOp, resolve, FState.isTerminal]

lemma stepOp_setExc_terminal (c : ResultCell T C) (e : ErrorKind)
    (h : c.state.isTerminal = true) : stepOp c (.setExc e) = c := by
  cases hs : c.state <;> simp_all [stepOp, fail, FState.isTerminal]

lemma stepOp_doCancel_terminal (c : ResultCell T C)
    (h : c.state.isTerminal = true) : stepOp c .doCancel = c := by
  cases hs : c.state <;> simp_all [stepOp, cancel, FState.isTerminal]

lemma stepOp_state_terminal (c : ResultCell T C) (op : Op T C)
    (h : c.state.isTerminal = true) :
    (stepOp c op).state = c.state := by
  cases op with
  | addCb f => rw [stepOp_addCb_terminal c f h]
  | setRes v => rw [stepOp_setRes_terminal c v h]
  | setExc e => rw [stepOp_setExc_terminal c e h]
  | doCancel => rw [stepOp_doCancel_terminal c h]

/-- Once terminal, a cell never transitions again: no later call in any
sequence succeeds in completing it. -/
lemma successCount_terminal (ops : List (Op T C)) :
    ∀ c : ResultCell T C, c.state.isTerminal = true → successCount c ops = 0 := by
  induction ops with
  | nil => intro c _; rfl
  | cons op rest ih =>
      intro c h
      have hs : (stepOp c op).state.isTerminal = true := by
        rw [stepOp_state_terminal c op h]; exact h
      have hnc : opCompletes c op = false := by
        cases op <;> simp [opCompletes, h]
      simp [successCount, hnc, ih _ hs]

/-- On a terminal cell, the run only appends post-completion callbacks to the
invocation record; state and pending-callback list are untouched. -/
lemma runOps_terminal (ops : List (Op T C)) :
    ∀ c : ResultCell T C, c.state.isTerminal = true →
      runOps c ops =
        { state := c.state, callbacks := c.callbacks,
          fired := c.fired ++ registrations ops } := by
  induction ops with
  | nil => intro c _; simp [runOps, registrations]
  | cons op rest ih =>
      intro c h
      cases op with
      | addCb f =>
          have heq :
              runOps c (Op.addCb f :: rest) =
                runOps { c with fired := c.fired ++ [f] } rest := by
            simp only [runOps, List.foldl_cons, stepOp_addCb_terminal c f h]
          rw [heq, ih { c with fired := c.fired ++ [f] } h]
          simp [registrations]
      | setRes v =>
          have heq : runOps c (Op.setRes v :: rest) = runOps c rest := by
            simp only [runOps, List.foldl_cons, stepOp_setRes_terminal c v h]
          rw [heq, ih c h]; simp [registrations]
      | setExc e =>
          have heq : runOps c (Op.setExc e :: rest) = runOps c rest := by
            simp only [runOps, List.foldl_cons, stepOp_setExc_terminal c e h]
          rw [heq, ih c h]; simp [registrations]
      | doCancel =>
          have heq : runOps c (Op.doCancel :: rest) = runOps c rest := by
            simp only [runOps, List.foldl_cons, stepOp_doCancel_terminal c h]
          rw [heq, ih c h]; simp [registrations]

/-- Running a call sequence on a pending cell: while the cell stays pending
the callbacks only accumulate in registration order and none is invoked; once
some call completes the cell, every callback ever registered — before or
after completion — ends up in the invocation record exactly once, in
registration order. -/
lemma runOps_pending (ops : List (Op T C)) :
    ∀ c : ResultCell T C, c.state = .Pending →
      ((runOps c ops).state = .Pending →
        runOps c ops =
          { state := .Pending, callbacks := c.callbacks ++ registrations ops,
            fired := c.fired })
      ∧ ((runOps c ops).state.isTerminal = true →
        (runOps c ops).fired = c.fired ++ c.callbacks ++ registrations ops
          ∧ (runOps c ops).callbacks = []) := by
  induction ops with
  | nil =>
      intro c h
      constructor
      · intro _
        cases c with
        | mk st cbs fd => simp at h; simp [runOps, registrations, h]
      · intro hterm
        rw [show runOps c [] = c from rfl, h] at hterm
        simp [FState.isTerminal] at hterm
  | cons op rest ih =>
      intro c h
      cases op with
      | addCb f =>
          have hstep : stepOp c (.addCb f) =
              { c with callbacks := c.callbacks ++ [f] } := by
            simp [stepOp, add_callback, h]
          have heq : runOps c (Op.addCb f :: rest) =
              runOps { c with callbacks := c.callbacks ++ [f] } rest := by
            simp only [runOps, List.foldl_cons, hstep]
          have ih2 := ih { c with callbacks := c.callbacks ++ [f] } (by simp [h])
          rw [heq]
          constructor
          · intro hp
            rw [ih2.1 hp]
            simp [registrations]
          · intro hterm
            refine ⟨?_, (ih2.2 hterm).2⟩
            rw [(ih2.2 hterm).1]
            simp [registrations]
      | setRes v =>
          have hstep : stepOp c (.setRes v) =
              { state := .Resolved v, callbacks := [],
                fired := c.fired ++ c.callbacks } := by
            simp [stepOp, resolve, h]
          have heq : runOps c (Op.setRes v :: rest) =
              runOps { state := .Resolved v, callbacks := [],
                       fired := c.fired ++ c.callbacks } rest := by
            simp only [runOps, List.foldl_cons, hstep]
          have hrun := runOps_terminal rest
            { state := FState.Resolved v, callbacks := [],
              fired := c.fired ++ c.callbacks } (by simp [FState.isTerminal])
          rw [heq, hrun]
          constructor
          · intro hp; simp at hp
          · intro _; simp [registrations]
      | setExc e =>
          have hstep : stepOp c (.setExc e) =
              { state := .Failed e, callbacks := [],
                fired := c.fired ++ c.callbacks } := by
            simp [stepOp, fail, h]
          have heq : runOps c (Op.setExc e :: rest) =
              runOps { state := .Failed e, callbacks := [],
                       fired := c.fired ++ c.callbacks } rest := by
            simp only [runOps, List.foldl_cons, hstep]
          have hrun := runOps_terminal rest
            { state := FState.Failed e, callbacks := [],
              fired := c.fired ++ c.callbacks } (by simp [FState.isTerminal])
          rw [heq, hrun]
          constructor
          · intro hp; simp at hp
          · intro _; simp [registrations]
      | doCancel =>
          have hstep : stepOp c .doCancel =
              { state := .Cancelled, callbacks := [],
                fired := c.fired ++ c.callbacks } := by
            simp [stepOp, cancel, h]
          have heq : runOps c (Op.doCancel :: rest) =
              runOps { state := .Cancelled, callbacks := [],
                       fired := c.fired ++ c.callbacks } rest := by
            simp only [runOps, List.foldl_cons, hstep]
          have hrun := runOps_terminal rest
            { state := FState.Cancelled, callbacks := [],
              fired := c.fired ++ c.callbacks } (by simp [FState.isTerminal])
          rw [heq, hrun]
          constructor
          · intro hp; simp at hp
          · intro _; simp [registrations]

/-- At most one call of any sequence ever completes a cell. -/
lemma successCount_le_one (ops : List (Op T C)) :
    ∀ c : ResultCell T C, successCount c ops ≤ 1 := by
  induction ops with
  | nil => intro c; simp [successCount]
  | cons op rest ih =>
      intro c
      by_cases hterm : c.state.isTerminal = true
      · rw [successCount_terminal (op :: rest) c hterm]
        exact Nat.zero_le 1
      · have hp : c.state = .Pending := by
          cases hs : c.state <;> simp_all [FState.isTerminal]
        cases op with
        | addCb f =>
            have hnc : opCompletes c (.addCb f) = false := rfl
            simpa [successCount, hnc] using ih (stepOp c (.addCb f))
        | setRes v =>
            have hstep : (stepOp c (.setRes v)).state.isTerminal = true := by
              simp [stepOp, resolve, hp, FState.isTerminal]
            simp [successCount, opCompletes, hp, FState.isTerminal,
              successCount_terminal rest _ hstep]
        | setExc e =>
            have hstep : (stepOp c (.setExc e)).state.isTerminal = true := by
              simp [stepOp, fail, hp, FState.isTerminal]
            simp [successCount, opCompletes, hp, FState.isTerminal,
              successCount_terminal rest _ hstep]
        | doCancel =>
            have hstep : (stepOp c .doCancel).state.isTerminal = true := by
              simp [stepOp, cancel, hp, FState.isTerminal]
            simp [successCount, opCompletes, hp, FState.isTerminal,
              successCount_terminal rest _ hstep]

/-- C1: For every Future, at most one of resolve (set_result), fail
(set_exception), or cancel ever succeeds in transitioning it out of Pending;
once the Future is in a terminal state, any further resolve/fail call is a
fault (InvalidStateError) and never silently overwrites the stored
outcome. -/
theorem future_completes_exactly_once (ops : List (Op T C))
    (c : ResultCell T C) (v : T) (e : ErrorKind)
    (hterm : c.state.isTerminal = true) :
    successCount (newCell : ResultCell T C) ops ≤ 1
    ∧ resolve c v = Except.error ErrorKind.InvalidStateError
    ∧ fail c e = Except.error ErrorKind.InvalidStateError
    ∧ stepOp c (.setRes v) = c
    ∧ stepOp c (.setExc e) = c := by
  refine ⟨successCount_le_one ops _, ?_, ?_, ?_, ?_⟩
  · cases hs : c.state <;> simp_all [resolve, FState.isTerminal]
  · cases hs : c.state <;> simp_all [fail, FState.isTerminal]
  · exact stepOp_setRes_terminal c v hterm
  · exact stepOp_setExc_terminal c e hterm

theorem future_completes_exactly_once_witness :
    successCount (newCell : ResultCell String Nat)
        [Op.setRes "a", Op.setRes "b", Op.doCancel] ≤ 1
    ∧ resolve ({ state := .Resolved "a", callbacks := [], fired := [] } :
        ResultCell String Nat) "y" = Except.error ErrorKind.InvalidStateError
    ∧ fail ({ state := .Resolved "a", callbacks := [], fired := [] } :
        ResultCell String Nat) ErrorKind.TimeoutError
        = Except.error ErrorKind.InvalidStateError
    ∧ stepOp ({ state := .Resolved "a", callbacks := [], fired := [] } :
        ResultCell String Nat) (.setRes "y")
        = { state := .Resolved "a", callbacks := [], fired := [] }
    ∧ stepOp ({ state := .Resolved "a", callbacks := [], fired := [] } :
        ResultCell String Nat) (.setExc ErrorKind.TimeoutError)
        = { state := .Resolved "a", callbacks := [], fired := [] } :=
  future_completes_exactly_once
    [Op.setRes "a", Op.setRes "b", Op.doCancel]
    { state := .Resolved "a", callbacks := [], fired := [] }
    "y" ErrorKind.TimeoutError (by rfl)

/-- C2: every registered callback is invoked exactly once, in registration
order, and only after the Future reaches a terminal state; a callback
registered after the Future is already terminal is still invoked rather than
dropped.  Invoked callbacks are recorded in `fired` in invocation order, so
the first conjunct states order and exactly-once at the same time; the second
states that no callback has been invoked at any point of the run where the
cell is still pending. -/
theorem callbacks_fire_exactly_once (ops : List (Op T C))
    (hterm : (runOps (newCell : ResultCell T C) ops).state.isTerminal = true) :
    (runOps (newCell : ResultCell T C) ops).fired = registrations ops
    ∧ ∀ pre suf : List (Op T C), ops = pre ++ suf →
        (runOps (newCell : ResultCell T C) pre).state = FState.Pending →
        (runOps (newCell : ResultCell T C) pre).fired = [] := by
  constructor
  · have h := (runOps_pending ops (newCell : ResultCell T C) rfl).2 hterm
    simpa [newCell] using h.1
  · intro pre _ _ hp
    have h := (runOps_pending pre (newCell : ResultCell T C) rfl).1 hp
    rw [h]; rfl

theorem callbacks_fire_exactly_once_witness :
    (runOps (newCell : ResultCell String Nat)
        [Op.addCb 0, Op.setRes "done", Op.addCb 1]).fired
      = registrations [Op.addCb 0, Op.setRes "done",
          (Op.addCb 1 : Op String Nat)]
    ∧ (runOps (newCell : ResultCell String Nat) [Op.addCb 0]).fired = [] :=
  ⟨(callbacks_fire_exactly_once
      [Op.addCb 0, Op.setRes "done", Op.addCb 1] (by rfl)).1,
   (callbacks_fire_exactly_once
      [Op.addCb 0, Op.setRes "done", Op.addCb 1] (by rfl)).2
      [Op.addCb 0] [Op.setRes "done", Op.addCb 1] rfl (by rfl)⟩

/-- C6: cancelling a Future already in the Resolved (or Failed) state is a
no-op that reports "already completed" rather than raising; the stored
result is left unchanged and remains retrievable afterwards. -/
theorem cancel_completed_noop (c : ResultCell T C) (v : T) (e : ErrorKind)
    (h : c.state = .Resolved v ∨ c.state = .Failed e) :
    (cancel c).1 = CancelOutcome.alreadyCompleted
    ∧ (cancel c).2 = c
    ∧ (c.state = .Resolved v →
        await_result (cancel c).2 = some (Except.ok v)) := by
  rcases h with h | h <;> simp [cancel, await_result, h]

theorem cancel_completed_noop_witness :
    (cancel resolvedCellR).1 = CancelOutcome.alreadyCompleted
    ∧ (cancel resolvedCellR).2 = resolvedCellR
    ∧ (resolvedCellR.state = .Resolved "r" →
        await_result (cancel resolvedCellR).2 = some (Except.ok "r")) :=
  cancel_completed_noop resolvedCellR "r" ErrorKind.TimeoutError (Or.inl rfl)

/-- C7: awaiting a terminal Future returns the stored value if Resolved, the
stored error if Failed, and the distinguished cancellation signal if
Cancelled; the outcome is delivered to the awaiting computation as a value of
the error-or-result type (catchable), never as a crash — on a terminal cell
`await_result` always produces an outcome. -/
theorem await_terminal_outcomes (c : ResultCell T C) (v : T) (e : ErrorKind)
    (hterm : c.state.isTerminal = true) :
    (await_result c).isSome = true
    ∧ (c.state = .Resolved v → await_result c = some (Except.ok v))
    ∧ (c.state = .Failed e → await_result c = some (Except.error e))
    ∧ (c.state = .Cancelled →
        await_result c = some (Except.error ErrorKind.CancelledError)) := by
  cases hs : c.state <;> simp_all [await_result, FState.isTerminal]

theorem await_terminal_outcomes_witness :
    (await_result failedCellManual).isSome = true
    ∧ (failedCellManual.state = .Resolved "x" →
        await_result failedCellManual = some (Except.ok "x"))
    ∧ (failedCellManual.state
          = .Failed (ErrorKind.ValueError "Manually set error!") →
        await_result failedCellManual
          = some (Except.error (ErrorKind.ValueError "Manually set error!")))
    ∧ (failedCellManual.state = .Cancelled →
        await_result failedCellManual
          = some (Except.error ErrorKind.CancelledError)) :=
  await_terminal_outcomes failedCellManual "x"
    (ErrorKind.ValueError "Manually set error!") (by rfl)

/-- C9: a freshly created Future, before any of set_result, set_exception or
cancel has been called on it, reports done() = false and
cancelled() = false. -/
theorem fresh_future_reports_pending :
    done (newCell : ResultCell T C) = false
    ∧ cancelled (newCell : ResultCell T C) = false := by
  exact ⟨rfl, rfl⟩

/-- C10: for every data value, once `async_operation`'s delay has elapsed its
completion call leaves a pending Future in exactly one terminal state
determined by data: Failed with RuntimeError("Operation failed") iff data is
"error"; Resolved with "Operation succeeded" when data is "success"; Resolved
with "Operation completed with data: " ++ data for any other value — never
still pending. -/
theorem async_operation_outcome (data : String) (c : ResultCell String C)
    (hp : c.state = .Pending) :
    ∃ c2, applyCompletion c (async_operation data) = Except.ok c2
      ∧ c2.state.isTerminal = true
      ∧ (c2.state = .Failed (ErrorKind.RuntimeError "Operation failed")
          ↔ data = "error")
      ∧ (data = "success" → c2.state = .Resolved "Operation succeeded")
      ∧ (data ≠ "success" → data ≠ "error" →
          c2.state = .Resolved ("Operation completed with data: " ++ data)) := by
  by_cases hs : data = "success"
  · refine ⟨{ state := .Resolved "Operation succeeded",
              callbacks := [],
              fired := c.fired ++ c.callbacks }, ?_, ?_, ?_, ?_, ?_⟩ <;>
      simp [async_operation, applyCompletion, resolve, hp, hs,
        FState.isTerminal]
  · by_cases he : data = "error"
    · refine ⟨{ state := .Failed (ErrorKind.RuntimeError "Operation failed"),
                callbacks := [],
                fired := c.fired ++ c.callbacks }, ?_, ?_, ?_, ?_, ?_⟩ <;>
        simp [async_operation, applyCompletion, fail, hp, hs, he,
          FState.isTerminal]
    · refine ⟨{ state := .Resolved ("Operation completed with data: " ++ data),
                callbacks := [],
                fired := c.fired ++ c.callbacks }, ?_, ?_, ?_, ?_, ?_⟩ <;>
        simp [async_operation, applyCompletion, resolve, hp, hs, he,
          FState.isTerminal]

theorem async_operation_outcome_witness :
    ∃ c2, applyCompletion (newCell : ResultCell String Nat)
        (async_operation "error") = Except.ok c2
      ∧ c2.state.isTerminal = true
      ∧ (c2.state = .Failed (ErrorKind.RuntimeError "Operation failed")
          ↔ "error" = "error")
      ∧ ("error" = "success" → c2.state = .Resolved "Operation succeeded")
      ∧ ("error" ≠ "success" → "error" ≠ "error" →
          c2.state = .Resolved ("Operation completed with data: " ++ "error")) :=
  async_operation_outcome "error" newCell rfl

/-- C8: a synchronous operation submitted through the executor bridge
resolves the associated Future with the operation's return value on success;
a thrown error is captured and fails the Future with that error — in both
cases the bridge's completion call itself succeeds (no crash of the pool),
and in particular `sync_task name` resolves the Future with
"Result from " ++ name. -/
theorem executor_bridge_outcome (c : ResultCell String C) (v : String)
    (e : ErrorKind) (name : String) (hp : c.state = .Pending) :
    executorComplete c (Except.ok v)
      = Except.ok { state := .Resolved v,
                    callbacks := [],
                    fired := c.fired ++ c.callbacks }
    ∧ executorComplete c (Except.error e)
      = Except.ok { state := .Failed e,
                    callbacks := [],
                    fired := c.fired ++ c.callbacks }
    ∧ executorComplete c (Except.ok (sync_task name))
      = Except.ok { state := .Resolved ("Result from " ++ name),
                    callbacks := [],
                    fired := c.fired ++ c.callbacks } := by
  refine ⟨?_, ?_, ?_⟩ <;>
    simp [executorComplete, resolve, fail, sync_task, hp]

theorem executor_bridge_outcome_witness :
    executorComplete (newCell : ResultCell String Nat) (Except.ok "x")
      = Except.ok { state := .Resolved "x",
                    callbacks := [],
                    fired := (newCell : ResultCell String Nat).fired
                      ++ (newCell : ResultCell String Nat).callbacks }
    ∧ executorComplete (newCell : ResultCell String Nat)
        (Except.error (ErrorKind.RuntimeError "boom"))
      = Except.ok { state := .Failed (ErrorKind.RuntimeError "boom"),
                    callbacks := [],
                    fired := (newCell : ResultCell String Nat).fired
                      ++ (newCell : ResultCell String Nat).callbacks }
    ∧ executorComplete (newCell : ResultCell String Nat)
        (Except.ok (sync_task "Sync-1"))
      = Except.ok { state := .Resolved ("Result from " ++ "Sync-1"),
                    callbacks := [],
                    fired := (newCell : ResultCell String Nat).fired
                      ++ (newCell : ResultCell String Nat).callbacks } :=
  executor_bridge_outcome newCell "x" (ErrorKind.RuntimeError "boom")
    "Sync-1" rfl

/-- C4: `timeout(future, duration)` behaves as a race.  If the deadline goes
off while the raced future is still pending (d < tf), the derived Future
fails with TimeoutError at time d, the raced future is left Cancelled, and
the timer fired.  If the raced future completes no later than the deadline
(tf ≤ d), its outcome — value or error — propagates to the derived Future at
time tf, the raced future keeps its own outcome, and the timer is cancelled
and never fires. -/
theorem timeout_race_behavior (tf d : Nat) (out : Except ErrorKind T) :
    (d < tf →
      (timeoutRun tf out d).derived = .Failed .TimeoutError
      ∧ (timeoutRun tf out d).fCell = .Cancelled
      ∧ (timeoutRun tf out d).settleTime = d
      ∧ (timeoutRun tf out d).timer = .Resolved ())
    ∧ (tf ≤ d →
      (timeoutRun tf out d).derived = stateOfOutcome out
      ∧ (timeoutRun tf out d).fCell = stateOfOutcome out
      ∧ (timeoutRun tf out d).settleTime = tf
      ∧ (timeoutRun tf out d).timer = .Cancelled) := by
  constructor
  · intro h
    have hn : ¬ tf ≤ d := Nat.not_le.mpr h
    cases out <;>
      simp [timeoutRun, timeoutStep, stateOfOutcome, FState.isPending, hn]
  · intro h
    cases out <;>
      simp [timeoutRun, timeoutStep, stateOfOutcome, FState.isPending, h]

theorem timeout_race_behavior_witness :
    ((timeoutRun 5 (Except.ok "slow_result") 3).derived
        = .Failed .TimeoutError
      ∧ (timeoutRun 5 (Except.ok "slow_result") 3).fCell = .Cancelled
      ∧ (timeoutRun 5 (Except.ok "slow_result") 3).settleTime = 3
      ∧ (timeoutRun 5 (Except.ok "slow_result") 3).timer = .Resolved ())
    ∧ ((timeoutRun 2 (Except.ok "fast") 3).derived
        = stateOfOutcome (Except.ok "fast")
      ∧ (timeoutRun 2 (Except.ok "fast") 3).fCell
        = stateOfOutcome (Except.ok "fast")
      ∧ (timeoutRun 2 (Except.ok "fast") 3).settleTime = 2
      ∧ (timeoutRun 2 (Except.ok "fast") 3).timer = .Cancelled) :=
  ⟨(timeout_race_behavior 5 3 (Except.ok "slow_result")).1 (by decide),
   (timeout_race_behavior 2 3 (Except.ok "fast")).2 (by decide)⟩

/-! ### Slot-filling lemmas: results land at the input's position, whatever
the completion order -/

lemma setSlot_length (l : List α) : ∀ (n : Nat) (a : α),
    (setSlot l n a).length = l.length := by
  induction l with
  | nil => intro n a; rfl
  | cons x rest ih =>
      intro n a
      cases n with
      | zero => rfl
      | succ m => simp [setSlot, ih]

lemma setSlot_getElem?_self (l : List α) : ∀ (n : Nat) (a : α), n < l.length →
    (setSlot l n a)[n]? = some a := by
  induction l with
  | nil => intro n a h; simp at h
  | cons x rest ih =>
      intro n a h
      cases n with
      | zero => simp [setSlot]
      | succ m =>
          have hm : m < rest.length := by simpa using h
          simpa [setSlot] using ih m a hm

lemma setSlot_getElem?_ne (l : List α) : ∀ (n : Nat) (a : α) (j : Nat), j ≠ n →
    (setSlot l n a)[j]? = l[j]? := by
  induction l with
  | nil => intro n a j _; rfl
  | cons x rest ih =>
      intro n a j h
      cases n with
      | zero =>
          cases j with
          | zero => exact absurd rfl h
          | succ i => simp [setSlot]
      | succ m =>
          cases j with
          | zero => simp [setSlot]
          | succ i =>
              have hne : i ≠ m := by
                intro hh; exact h (by rw [hh])
              simpa [setSlot] using ih m a i hne

lemma lastWrite_mem (evs : List (Ev T)) (j : Nat) :
    ∀ ev : Ev T, lastWrite evs j = some ev → ev ∈ evs ∧ ev.idx = j := by
  induction evs with
  | nil => intro ev h; simp [lastWrite] at h
  | cons e2 rest ih =>
      intro ev h
      simp only [lastWrite] at h
      cases hlw : lastWrite rest j with
      | some e3 =>
          rw [hlw] at h
          have hee : e3 = ev := by injection h
          subst hee
          obtain ⟨hmem, hidx⟩ := ih e3 hlw
          exact ⟨List.mem_cons_of_mem _ hmem, hidx⟩
      | none =>
          rw [hlw] at h
          by_cases hidx : e2.idx = j
          · rw [if_pos hidx] at h
            have hee : e2 = ev := by injection h
            subst hee
            exact ⟨List.mem_cons_self _ _, hidx⟩
          · rw [if_neg hidx] at h
            exact absurd h (by simp)

lemma lastWrite_none (evs : List (Ev T)) (j : Nat) :
    lastWrite evs j = none → ∀ ev ∈ evs, ev.idx ≠ j := by
  induction evs with
  | nil => intro _ ev hmem; simp at hmem
  | cons e2 rest ih =>
      intro h ev hmem
      simp only [lastWrite] at h
      cases hlw : lastWrite rest j with
      | some e3 => rw [hlw] at h; exact absurd h (by simp)
      | none =>
          rw [hlw] at h
          by_cases hidx : e2.idx = j
          · rw [if_pos hidx] at h; exact absurd h (by simp)
          · rcases List.mem_cons.mp hmem with hev | hev
            · rw [hev]; exact hidx
            · exact ih hlw ev hev

lemma writeSlots_getElem? (f : Ev T → α) (evs : List (Ev T)) :
    ∀ (init : List α) (j : Nat), (∀ ev ∈ evs, ev.idx < init.length) →
      (writeSlots f init evs)[j]? =
        match lastWrite evs j with
        | some ev => some (f ev)
        | none => init[j]? := by
  induction evs with
  | nil => intro init j _; rfl
  | cons ev rest ih =>
      intro init j hb
      have hlen : (setSlot init ev.idx (f ev)).length = init.length :=
        setSlot_length init ev.idx (f ev)
      have hb2 : ∀ e2 ∈ rest, e2.idx < (setSlot init ev.idx (f ev)).length := by
        intro e2 he2; rw [hlen]; exact hb e2 (List.mem_cons_of_mem _ he2)
      have hmain : writeSlots f init (ev :: rest)
          = writeSlots f (setSlot init ev.idx (f ev)) rest := rfl
      rw [hmain, ih _ j hb2]
      simp only [lastWrite]
      cases hlw : lastWrite rest j with
      | some e2 => rfl
      | none =>
          by_cases hidx : ev.idx = j
          · rw [if_pos hidx, ← hidx]
            exact setSlot_getElem?_self init ev.idx (f ev)
              (hb ev (List.mem_cons_self _ _))
          · rw [if_neg hidx]
            exact setSlot_getElem?_ne init ev.idx (f ev) j
              (fun hh => hidx hh.symm)

/-! ### Events of an input list: one event per input, at its own index -/

lemma eventsFrom_getElem? (inputs : List (Nat × Except ErrorKind T)) :
    ∀ (k j : Nat),
      (eventsFrom k inputs)[j]? =
        inputs[j]?.map (fun p => { time := p.1, idx := k + j, out := p.2 }) := by
  induction inputs with
  | nil => intro k j; simp [eventsFrom]
  | cons p rest ih =>
      intro k j
      obtain ⟨d, o⟩ := p
      cases j with
      | zero => simp [eventsFrom]
      | succ m =>
          have harith : k + 1 + m = k + (m + 1) := by omega
          simp [eventsFrom, ih (k + 1) m, harith]

lemma mem_eventsFrom (inputs : List (Nat × Except ErrorKind T)) :
    ∀ (k : Nat) (ev : Ev T), ev ∈ eventsFrom k inputs →
      k ≤ ev.idx ∧ inputs[ev.idx - k]? = some (ev.time, ev.out) := by
  induction inputs with
  | nil => intro k ev h; simp [eventsFrom] at h
  | cons p rest ih =>
      intro k ev h
      obtain ⟨d, o⟩ := p
      simp only [eventsFrom, List.mem_cons] at h
      rcases h with h | h
      · subst h
        simp
      · obtain ⟨hk, hget⟩ := ih (k + 1) ev h
        refine ⟨by omega, ?_⟩
        have harith : ev.idx - k = (ev.idx - (k + 1)) + 1 := by omega
        rw [harith]
        simpa using hget

lemma eventsFrom_length (inputs : List (Nat × Except ErrorKind T)) :
    ∀ k : Nat, (eventsFrom k inputs).length = inputs.length := by
  induction inputs with
  | nil => intro k; rfl
  | cons p rest ih =>
      intro k
      obtain ⟨d, o⟩ := p
      simp [eventsFrom, ih (k + 1)]

lemma eventsFrom_map_out (g : Except ErrorKind T → α)
    (inputs : List (Nat × Except ErrorKind T)) :
    ∀ k : Nat, (eventsFrom k inputs).map (fun ev => g ev.out)
      = inputs.map (fun p => g p.2) := by
  induction inputs with
  | nil => intro k; rfl
  | cons p rest ih =>
      intro k
      obtain ⟨d, o⟩ := p
      simp [eventsFrom, ih (k + 1)]

lemma eventsFrom_foldl_time (inputs : List (Nat × Except ErrorKind T)) :
    ∀ (k b : Nat), (eventsFrom k inputs).foldl (fun t ev => max t ev.time) b
      = inputs.foldl (fun t p => max t p.1) b := by
  induction inputs with
  | nil => intro k b; rfl
  | cons p rest ih =>
      intro k b
      obtain ⟨d, o⟩ := p
      simp [eventsFrom, ih (k + 1)]

/-- Whatever the completion order, processing one event per input writes each
input's entry into its own slot: the filled slots equal the input-order event
list mapped through the writing function. -/
lemma writeSlots_perm_eventsOf (f : Ev T → α)
    (inputs : List (Nat × Except ErrorKind T)) (evs : List (Ev T))
    (init : List α) (hperm : evs.Perm (eventsOf inputs))
    (hlen : init.length = inputs.length) :
    writeSlots f init evs = (eventsOf inputs).map f := by
  have hbound : ∀ ev ∈ evs, ev.idx < init.length := by
    intro ev hev
    have hmem : ev ∈ eventsOf inputs := hperm.mem_iff.mp hev
    obtain ⟨-, hget⟩ := mem_eventsFrom inputs 0 ev hmem
    rw [hlen]
    have hlt := (List.getElem?_eq_some.mp hget).1
    simpa using hlt
  apply List.ext_getElem?
  intro j
  rw [writeSlots_getElem? f evs init j hbound]
  by_cases hj : j < inputs.length
  · have hpex : ∃ p, inputs[j]? = some p := by
      rw [List.getElem?_eq_getElem hj]; exact ⟨_, rfl⟩
    obtain ⟨⟨d, o⟩, hp⟩ := hpex
    have hevj : (eventsOf inputs)[j]? = some { time := d, idx := j, out := o } := by
      rw [eventsOf, eventsFrom_getElem? inputs 0 j, hp]
      simp
    have hmeme : ({ time := d, idx := j, out := o } : Ev T) ∈ eventsOf inputs :=
      List.getElem?_mem hevj
    have hmeme2 : ({ time := d, idx := j, out := o } : Ev T) ∈ evs :=
      hperm.mem_iff.mpr hmeme
    cases hlw : lastWrite evs j with
    | none => exact absurd rfl (lastWrite_none evs j hlw _ hmeme2)
    | some ev =>
        obtain ⟨hmem3, hidx⟩ := lastWrite_mem evs j ev hlw
        have hmem4 : ev ∈ eventsOf inputs := hperm.mem_iff.mp hmem3
        obtain ⟨-, hget⟩ := mem_eventsFrom inputs 0 ev hmem4
        simp only [hidx, Nat.sub_zero] at hget
        rw [hp] at hget
        have hdo : ev.time = d ∧ ev.out = o := by
          have h1 : (ev.time, ev.out) = (d, o) := by
            injection hget with hh
            exact hh.symm
          exact ⟨congrArg Prod.fst h1, congrArg Prod.snd h1⟩
        rw [List.getElem?_map, hevj]
        cases ev with
        | mk t i u =>
            simp only at hidx hdo
            simp [hidx, hdo.1, hdo.2]
  · cases hlw : lastWrite evs j with
    | some ev =>
        obtain ⟨hmem3, hidx⟩ := lastWrite_mem evs j ev hlw
        have := hbound ev hmem3
        rw [hlen, hidx] at this
        omega
    | none =>
        have hl : init[j]? = none := by
          apply List.getElem?_eq_none
          omega
        have hr : ((eventsOf inputs).map f)[j]? = none := by
          apply List.getElem?_eq_none
          rw [List.length_map, eventsOf, eventsFrom_length]
          omega
        rw [hl, hr]

lemma reduceOption_map_some (l : List (Nat × Except ErrorKind T)) :
    (l.map (fun p => some p.2)).reduceOption = l.map Prod.snd := by
  induction l with
  | nil => rfl
  | cons p rest ih =>
      simp only [List.map_cons, List.reduceOption_cons_of_some, ih]

/-- C3: `gather` in CollectErrors mode waits for every input (the derived
Future completes at the time of the slowest input), returns the parallel
sequence of per-input Results in input order — whatever completion order the
events arrive in — and resolves the derived Future rather than failing it. -/
theorem gather_collect_errors (inputs : List (Nat × Except ErrorKind T))
    (evs : List (Ev T)) (c : ResultCell (List (Except ErrorKind T)) C)
    (hperm : evs.Perm (eventsOf inputs)) (hp : c.state = .Pending) :
    (gatherCollect inputs.length evs).slots = inputs.map (fun p => some p.2)
    ∧ (gatherCollect inputs.length evs).finishTime = maxDelay inputs
    ∧ gatherCollectFinish (gatherCollect inputs.length evs) c
        = Except.ok { state := .Resolved (inputs.map Prod.snd),
                      callbacks := [],
                      fired := c.fired ++ c.callbacks } := by
  have hslots : (gatherCollect inputs.length evs).slots
      = inputs.map (fun p => some p.2) := by
    have hmain := writeSlots_perm_eventsOf (fun ev => some ev.out) inputs evs
      (List.replicate inputs.length (none : Option (Except ErrorKind T)))
      hperm (by simp)
    calc (gatherCollect inputs.length evs).slots
        = writeSlots (fun ev => some ev.out)
            (List.replicate inputs.length none) evs := rfl
      _ = (eventsOf inputs).map (fun ev => some ev.out) := hmain
      _ = inputs.map (fun p => some p.2) := by
            rw [eventsOf, eventsFrom_map_out]
  have htime : (gatherCollect inputs.length evs).finishTime = maxDelay inputs := by
    calc (gatherCollect inputs.length evs).finishTime
        = evs.foldl (fun t ev => max t ev.time) 0 := rfl
      _ = (eventsOf inputs).foldl (fun t ev => max t ev.time) 0 :=
            hperm.foldl_eq' (fun x _ y _ z => by omega) 0
      _ = maxDelay inputs := by
            rw [eventsOf, eventsFrom_foldl_time]
            rfl
  refine ⟨hslots, htime, ?_⟩
  show resolve c (gatherCollect inputs.length evs).slots.reduceOption = _
  rw [hslots, reduceOption_map_some]
  simp [resolve, hp]

theorem gather_collect_errors_witness :
    (gatherCollect gInputs.length gEvs).slots = gInputs.map (fun p => some p.2)
    ∧ (gatherCollect gInputs.length gEvs).finishTime = maxDelay gInputs
    ∧ gatherCollectFinish (gatherCollect gInputs.length gEvs)
        (newCell : ResultCell (List (Except ErrorKind String)) Nat)
      = Except.ok { state := .Resolved (gInputs.map Prod.snd),
                    callbacks := [],
                    fired := (newCell : ResultCell (List (Except ErrorKind String)) Nat).fired
                      ++ (newCell : ResultCell (List (Except ErrorKind String)) Nat).callbacks } :=
  gather_collect_errors gInputs gEvs newCell (by decide) rfl

/-! ### FailFast gather: run lemmas -/

lemma failFastStep_inputStates (st : FailFastRun T) (ev : Ev T) :
    (failFastStep st ev).inputStates
      = setSlot st.inputStates ev.idx (stateOfOutcome ev.out) := by
  cases hd : st.derived <;> cases ho : ev.out <;>
    simp [failFastStep, hd, ho]

lemma failFastRun_inputStates (evs : List (Ev T)) :
    ∀ st : FailFastRun T, (evs.foldl failFastStep st).inputStates
      = writeSlots (fun ev => stateOfOutcome ev.out) st.inputStates evs := by
  induction evs with
  | nil => intro st; rfl
  | cons ev rest ih =>
      intro st
      rw [List.foldl_cons, ih (failFastStep st ev)]
      rw [failFastStep_inputStates st ev]
      rfl

lemma failFastStep_notPending (st : FailFastRun T) (ev : Ev T)
    (h : st.derived.isPending = false) :
    (failFastStep st ev).derived = st.derived
    ∧ (failFastStep st ev).failTime = st.failTime
    ∧ (failFastStep st ev).results = st.results := by
  cases hd : st.derived <;> cases ho : ev.out <;>
    simp_all [failFastStep, FState.isPending]

lemma failFastRun_after (evs : List (Ev T)) :
    ∀ st : FailFastRun T, st.derived.isPending = false →
      (evs.foldl failFastStep st).derived = st.derived
      ∧ (evs.foldl failFastStep st).failTime = st.failTime
      ∧ (evs.foldl failFastStep st).results = st.results := by
  induction evs with
  | nil => intro st _; exact ⟨rfl, rfl, rfl⟩
  | cons ev rest ih =>
      intro st h
      obtain ⟨h1, h2, h3⟩ := failFastStep_notPending st ev h
      have hp2 : (failFastStep st ev).derived.isPending = false := by
        rw [h1]; exact h
      obtain ⟨g1, g2, g3⟩ := ih (failFastStep st ev) hp2
      rw [List.foldl_cons]
      exact ⟨g1.trans h1, g2.trans h2, g3.trans h3⟩

lemma failFastRun_derived (evs : List (Ev T)) :
    ∀ st : FailFastRun T, st.derived = .Pending →
      ((evs.foldl failFastStep st).derived
        = match firstFailure evs with
          | some (_, e) => .Failed e
          | none => .Pending)
      ∧ ((evs.foldl failFastStep st).failTime
        = match firstFailure evs with
          | some (t, _) => some t
          | none => st.failTime) := by
  induction evs with
  | nil =>
      intro st h
      rw [show (List.foldl failFastStep st [] = st) from rfl, h]
      exact ⟨rfl, rfl⟩
  | cons ev rest ih =>
      intro st h
      cases ho : ev.out with
      | ok v =>
          have hd : (failFastStep st ev).derived = .Pending := by
            simp [failFastStep, h, ho]
          have ht : (failFastStep st ev).failTime = st.failTime := by
            simp [failFastStep, h, ho]
          have hrest := ih (failFastStep st ev) hd
          have hff : firstFailure (ev :: rest) = firstFailure rest := by
            simp [firstFailure, ho]
          rw [List.foldl_cons, hff]
          exact ⟨hrest.1, by rw [hrest.2, ht]⟩
      | error e =>
          have hd : (failFastStep st ev).derived = .Failed e := by
            simp [failFastStep, h, ho]
          have ht : (failFastStep st ev).failTime = some ev.time := by
            simp [failFastStep, h, ho]
          have hp2 : (failFastStep st ev).derived.isPending = false := by
            rw [hd]; rfl
          obtain ⟨g1, g2, -⟩ := failFastRun_after rest (failFastStep st ev) hp2
          have hff : firstFailure (ev :: rest) = some (ev.time, e) := by
            simp [firstFailure, ho]
          rw [List.foldl_cons, hff]
          exact ⟨g1.trans hd, g2.trans ht⟩

lemma firstFailure_none (evs : List (Ev T)) :
    firstFailure evs = none → ∀ ev ∈ evs, (okValue ev.out).isSome = true := by
  induction evs with
  | nil => intro _ ev h; simp at h
  | cons e2 rest ih =>
      intro h ev hmem
      cases ho : e2.out with
      | error e =>
          simp only [firstFailure, ho] at h
          exact Option.noConfusion h
      | ok v =>
          simp only [firstFailure, ho] at h
          rcases List.mem_cons.mp hmem with hev | hev
          · rw [hev, ho]; rfl
          · exact ih h ev hev

lemma failFastRun_results_ok (evs : List (Ev T)) :
    ∀ st : FailFastRun T, st.derived = .Pending →
      (∀ ev ∈ evs, (okValue ev.out).isSome = true) →
      (evs.foldl failFastStep st).results
        = writeSlots (fun ev => okValue ev.out) st.results evs := by
  induction evs with
  | nil => intro st _ _; rfl
  | cons ev rest ih =>
      intro st h hall
      have hok := hall ev (List.mem_cons_self _ _)
      cases ho : ev.out with
      | error e => rw [ho] at hok; simp [okValue] at hok
      | ok v =>
          have hd : (failFastStep st ev).derived = .Pending := by
            simp [failFastStep, h, ho]
          have hr : (failFastStep st ev).results
              = setSlot st.results ev.idx (some v) := by
            simp [failFastStep, h, ho]
          have hws : writeSlots (fun ev => okValue ev.out) st.results (ev :: rest)
              = writeSlots (fun ev => okValue ev.out)
                  (setSlot st.results ev.idx (okValue ev.out)) rest := rfl
          rw [List.foldl_cons,
            ih (failFastStep st ev) hd
              (fun e2 he2 => hall e2 (List.mem_cons_of_mem _ he2)),
            hr, hws, ho]
          rfl

lemma reduceOption_map_okValue (l : List (Nat × Except ErrorKind T)) :
    (l.map (fun p => okValue p.2)).reduceOption
      = l.filterMap (fun p => okValue p.2) := by
  induction l with
  | nil => rfl
  | cons p rest ih =>
      cases ho : p.2 with
      | ok v =>
          have hv : okValue p.2 = some v := by rw [ho]; rfl
          simp only [List.map_cons, hv,
            List.reduceOption_cons_of_some, List.filterMap_cons, ih]
      | error e =>
          have hv : okValue p.2 = none := by rw [ho]; rfl
          simp only [List.map_cons, hv, List.filterMap_cons,
            List.reduceOption_cons_of_none, ih]

/-- C5: `gather` in FailFast mode fails the derived Future with the first
input error, at the instant that input fails, while the remaining inputs are
left running: every input's own cell still reaches the terminal state of its
own outcome (never Cancelled), and outcomes arriving after the failure are
discarded — the derived Future stays failed with that first error through the
end of the run.  When no input fails, the derived Future resolves with the
collected values in input order. -/
theorem gather_failfast_behavior (inputs : List (Nat × Except ErrorKind T))
    (evs : List (Ev T)) (t : Nat) (e : ErrorKind)
    (hperm : evs.Perm (eventsOf inputs)) :
    (firstFailure evs = some (t, e) →
      (failFastRun inputs.length evs).derived = .Failed e
      ∧ (failFastRun inputs.length evs).failTime = some t
      ∧ failFastFinish (failFastRun inputs.length evs) = .Failed e)
    ∧ ((failFastRun inputs.length evs).inputStates
        = inputs.map (fun p => stateOfOutcome p.2)
      ∧ ∀ s ∈ (failFastRun inputs.length evs).inputStates,
          s ≠ .Cancelled ∧ s.isTerminal = true)
    ∧ (firstFailure evs = none →
      failFastFinish (failFastRun inputs.length evs)
        = .Resolved (inputs.filterMap (fun p => okValue p.2))) := by
  have hderived := failFastRun_derived evs
    { inputStates := List.replicate inputs.length FState.Pending
      results := List.replicate inputs.length none
      derived := .Pending
      failTime := none } rfl
  have hstates : (failFastRun inputs.length evs).inputStates
      = inputs.map (fun p => stateOfOutcome p.2) := by
    have h1 := failFastRun_inputStates evs
      { inputStates := List.replicate inputs.length FState.Pending
        results := List.replicate inputs.length none
        derived := .Pending
        failTime := none }
    have h2 := writeSlots_perm_eventsOf (fun ev => stateOfOutcome ev.out)
      inputs evs (List.replicate inputs.length FState.Pending) hperm (by simp)
    calc (failFastRun inputs.length evs).inputStates
        = writeSlots (fun ev => stateOfOutcome ev.out)
            (List.replicate inputs.length FState.Pending) evs := h1
      _ = (eventsOf inputs).map (fun ev => stateOfOutcome ev.out) := h2
      _ = inputs.map (fun p => stateOfOutcome p.2) := by
            rw [eventsOf, eventsFrom_map_out]
  refine ⟨?_, ⟨hstates, ?_⟩, ?_⟩
  · intro hff
    rw [hff] at hderived
    have hd1 : (failFastRun inputs.length evs).derived = FState.Failed e :=
      hderived.1
    have hd2 : (failFastRun inputs.length evs).failTime = some t :=
      hderived.2
    refine ⟨hd1, hd2, ?_⟩
    rw [failFastFinish, hd1]
  · intro s hs
    rw [hstates] at hs
    obtain ⟨p, -, rfl⟩ := List.mem_map.mp hs
    cases hp2 : p.2 <;> simp [stateOfOutcome, FState.isTerminal]
  · intro hff
    have hall := firstFailure_none evs hff
    have hres : (failFastRun inputs.length evs).results
        = inputs.map (fun p => okValue p.2) := by
      have h1 := failFastRun_results_ok evs
        { inputStates := List.replicate inputs.length FState.Pending
          results := List.replicate inputs.length none
          derived := .Pending
          failTime := none } rfl hall
      have h2 := writeSlots_perm_eventsOf (fun ev => okValue ev.out)
        inputs evs (List.replicate inputs.length (none : Option T)) hperm
        (by simp)
      calc (failFastRun inputs.length evs).results
          = writeSlots (fun ev => okValue ev.out)
              (List.replicate inputs.length none) evs := h1
        _ = (eventsOf inputs).map (fun ev => okValue ev.out) := h2
        _ = inputs.map (fun p => okValue p.2) := by
              rw [eventsOf, eventsFrom_map_out]
    rw [hff] at hderived
    have hd1 : (failFastRun inputs.length evs).derived = FState.Pending :=
      hderived.1
    rw [failFastFinish, hd1, hres, reduceOption_map_okValue]

theorem gather_failfast_behavior_witness :
    ((failFastRun ffInputs.length ffEvs).derived
        = .Failed (ErrorKind.RuntimeError "x")
      ∧ (failFastRun ffInputs.length ffEvs).failTime = some 1
      ∧ failFastFinish (failFastRun ffInputs.length ffEvs)
        = .Failed (ErrorKind.RuntimeError "x"))
    ∧ (failFastRun ffInputs.length ffEvs).inputStates
        = ffInputs.map (fun p => stateOfOutcome p.2) :=
  ⟨(gather_failfast_behavior ffInputs ffEvs 1 (ErrorKind.RuntimeError "x")
      (by decide)).1 rfl,
   (gather_failfast_behavior ffInputs ffEvs 1 (ErrorKind.RuntimeError "x")
      (by decide)).2.1.1⟩
